import Mathlib

/-!
Shallow embedding of the analytics core of the token-screening service
(`src/unnamed/part_000`, with the retrying JSON-RPC client also present in
`src/index.js`).  JavaScript numbers are modelled as exact rationals (ℚ),
raw on-chain integer amounts as ℕ, and JavaScript `null`/`undefined` as
`Option`.  Fetching is factored out: each embedded function takes the data
the original obtained from the upstream API as explicit arguments and
performs the same pure computation on it.
-/

/-- Mainnet USDC mint address (`USDC_MINT` constant in the source). -/
def USDC_MINT : String := "EPjFWdd5AufqSSqeM2qN1xzybapC8G4wEGGkZwyTDt1v"

/-- JavaScript `x || d` on an optional number: `null`/`undefined` and the
falsy number `0` are replaced by the default `d`. -/
def jsOr (x : Option ℚ) (d : ℚ) : ℚ :=
  match x with
  | none => d
  | some v => if v = 0 then d else v

/-- JavaScript truthiness of an optional string: `null`/`undefined` and the
empty string are falsy (`!usdcMint` test, `filter(Boolean)`). -/
def jsTruthyStr (o : Option String) : Bool :=
  match o with
  | none => false
  | some s => s ≠ ""

/-- `uiFromRaw(amountBN, dec)` — scales a raw integer amount into a
ui amount by dividing by `10 ^ dec`. -/
def uiFromRaw (amount : ℕ) (dec : ℕ) : ℚ :=
  (amount : ℚ) / 10 ^ dec

/-- Result of `getTokenAccountBalance` / `getMintSupply`: raw amount plus
decimals; `ui` is the derived ui amount. -/
structure TokenBalance where
  amount : ℕ
  decimals : ℕ
deriving DecidableEq

/-- Derived ui amount of a balance, as computed by `uiFromRaw`. -/
def TokenBalance.ui (b : TokenBalance) : ℚ := uiFromRaw b.amount b.decimals

/-- Classification result of `poolReserves`. -/
structure PoolClass where
  usdc : TokenBalance
  tok : TokenBalance
  tokMint : Option String
  usdcMint : Option String
deriving DecidableEq

/-- `poolReserves(reserveX, reserveY)` with the fetched data passed in:
`ax`/`ay` are the two reserve balances, `mintX`/`mintY` the owning mints
read from the parsed account infos (`ix?.mint`, `iy?.mint`).  Mirrors the
source exactly: start with the X side as quote, flip on an exact USDC
match of either mint (X-side match checked last, so it wins), then apply
the decimals fallback only when `usdcMint` is falsy. -/
def poolReserves (ax ay : TokenBalance) (mintX mintY : Option String) : PoolClass :=
  let s0 : PoolClass := ⟨ax, ay, mintY, mintX⟩
  let s1 := if mintY = some USDC_MINT then ⟨ay, ax, mintX, mintY⟩ else s0
  let s2 := if mintX = some USDC_MINT then ⟨ax, ay, mintY, mintX⟩ else s1
  if ¬ jsTruthyStr s2.usdcMint ∧ ay.decimals = 6 ∧ ax.decimals ≠ 6 then
    { s2 with usdc := ay, tok := ax }
  else s2

/-- Result record of `priceAndFDVFromReserves`. -/
structure PriceFDV where
  price_usd : ℚ
  fdv_usd : ℚ
  total_supply : ℚ
  pool_usdc : ℚ
  pool_token : ℚ
deriving DecidableEq

/-- `priceAndFDVFromReserves(tokenMint, reserveX, reserveY)`: classifies the
reserves via `poolReserves`, rejects non-positive reserves with the
`"pool reserves are zero"` error, otherwise price = usdc.ui / tok.ui and
fdv = price * supply.ui (supply fetched from the token mint, passed in). -/
def priceAndFDVFromReserves (supply : TokenBalance) (ax ay : TokenBalance)
    (mintX mintY : Option String) : Except String PriceFDV :=
  let pc := poolReserves ax ay mintX mintY
  if pc.tok.ui ≤ 0 ∨ pc.usdc.ui ≤ 0 then .error "pool reserves are zero"
  else
    let price := pc.usdc.ui / pc.tok.ui
    .ok ⟨price, price * supply.ui, supply.ui, pc.usdc.ui, pc.tok.ui⟩

/-- Parsed token-account info (`row.account.data.parsed.info`): owning
wallet and the ui amount (`info.tokenAmount?.uiAmount`, possibly absent). -/
structure AcctInfo where
  owner : String
  uiAmount : Option ℚ
deriving DecidableEq

/-- One row returned by `getProgramAccounts`; `info` is `none` when the
parsed info is missing (the `if (!info) continue` guard). -/
structure RawAccount where
  info : Option AcctInfo
deriving DecidableEq

/-- Result record of `lpLockedPercent`. -/
structure LpLockedResult where
  lp_total_supply : ℚ
  locked_ui : ℚ
  locked_pct : ℚ
deriving DecidableEq

/-- `lpLockedPercent(lpMint, lockerOwners)` with the fetched data passed in:
`v1`/`v2` are the account rows from the two token programs, `sup` the LP
mint supply.  Sums ui balances of rows owned by a locker and divides by the
total supply, yielding `0` (not an error) when the supply is `0`
(`sup.ui ? ... : 0`). -/
def lpLockedPercent (v1 v2 : List RawAccount) (lockerOwners : List String)
    (sup : TokenBalance) : LpLockedResult :=
  let locked := (v1 ++ v2).foldl (fun acc row =>
    match row.info with
    | none => acc
    | some i => if i.owner ∈ lockerOwners then acc + (i.uiAmount.getD 0) else acc) 0
  ⟨sup.ui, locked, if sup.ui ≠ 0 then locked / sup.ui * 100 else 0⟩

/-- Result record of `fdvToMcap`. -/
structure FdvMcapResult where
  fdv_usd : ℚ
  marketcap_usd : ℚ
  fdv_to_mcap : Option ℚ
deriving DecidableEq

/-- `fdvToMcap(price, totalSupply, circulatingSupply)`: fdv and market cap,
with the ratio `null` when the market cap is zero (`mc ? fdv/mc : null`);
the circulating supply defaults to the total supply (`??`). -/
def fdvToMcap (price totalSupply : ℚ) (circulatingSupply : Option ℚ) : FdvMcapResult :=
  let fdv := price * totalSupply
  let mc := price * (circulatingSupply.getD totalSupply)
  ⟨fdv, mc, if mc ≠ 0 then some (fdv / mc) else none⟩

/- ===== Claim theorems (pool pricing, LP lock, FDV/MC ratio) ===== -/

/-- C1: the spec demands that reserve classification fail with
`AmbiguousReserveError` when neither mint matches the reference asset and
both reserves have equal decimals; the code instead silently classifies the
X side as quote.  Concretely, with two non-USDC mints and equal decimals 6,
`poolReserves` returns a classification (quote := reserve X, with the
non-reference `usdcMint`) and no error. -/
theorem poolReserves_silent_guess_on_ambiguous :
    poolReserves ⟨1000000, 6⟩ ⟨2000000, 6⟩ (some "MintAAAAAAAAAAAAAAAAAAAAAAAAAAAAAAAA")
      (some "MintBBBBBBBBBBBBBBBBBBBBBBBBBBBBBBBB") =
    ⟨⟨1000000, 6⟩, ⟨2000000, 6⟩, some "MintBBBBBBBBBBBBBBBBBBBBBBBBBBBBBBBB",
      some "MintAAAAAAAAAAAAAAAAAAAAAAAAAAAAAAAA"⟩ := by
  decide

/-- C6: whenever the classified quote and base ui balances are both
positive, `priceAndFDVFromReserves` returns price = quote_ui / base_ui and
fdv = price * total_supply_ui; and on the concrete pool of the spec (raw
supply 1 000 000 000 at 6 decimals, quote reserve 5000 ui, base reserve
100 ui) it returns price 50 and fdv 50000, with `uiFromRaw` scaling the raw
supply to 1000 ui. -/
theorem priceAndFDV_quotient_and_example (supply ax ay : TokenBalance)
    (mintX mintY : Option String)
    (htok : 0 < (poolReserves ax ay mintX mintY).tok.ui)
    (husdc : 0 < (poolReserves ax ay mintX mintY).usdc.ui) :
    priceAndFDVFromReserves supply ax ay mintX mintY =
      .ok ⟨(poolReserves ax ay mintX mintY).usdc.ui / (poolReserves ax ay mintX mintY).tok.ui,
        (poolReserves ax ay mintX mintY).usdc.ui / (poolReserves ax ay mintX mintY).tok.ui
          * supply.ui,
        supply.ui, (poolReserves ax ay mintX mintY).usdc.ui,
        (poolReserves ax ay mintX mintY).tok.ui⟩ ∧
    priceAndFDVFromReserves ⟨1000000000, 6⟩ ⟨5000000000, 6⟩ ⟨100000000, 6⟩
      (some USDC_MINT) (some "TokMintXXXXXXXXXXXXXXXXXXXXXXXXXXXXX") =
      .ok ⟨50, 50000, 1000, 5000, 100⟩ ∧
    uiFromRaw 1000000000 6 = 1000 := by
  refine ⟨?_, ?_, by norm_num [uiFromRaw]⟩
  · rw [priceAndFDVFromReserves, if_neg]
    push_neg
    exact ⟨htok, husdc⟩
  · norm_num [priceAndFDVFromReserves, poolReserves, TokenBalance.ui, uiFromRaw, jsTruthyStr,
      USDC_MINT]

/-- Witness for C6 at the spec's concrete pool: both classified reserves
are positive and the theorem's conclusion holds there. -/
theorem priceAndFDV_quotient_and_example_check :
    0 < (poolReserves ⟨5000000000, 6⟩ ⟨100000000, 6⟩ (some USDC_MINT)
          (some "TokMintXXXXXXXXXXXXXXXXXXXXXXXXXXXXX")).tok.ui ∧
    0 < (poolReserves ⟨5000000000, 6⟩ ⟨100000000, 6⟩ (some USDC_MINT)
          (some "TokMintXXXXXXXXXXXXXXXXXXXXXXXXXXXXX")).usdc.ui ∧
    priceAndFDVFromReserves ⟨1000000000, 6⟩ ⟨5000000000, 6⟩ ⟨100000000, 6⟩
      (some USDC_MINT) (some "TokMintXXXXXXXXXXXXXXXXXXXXXXXXXXXXX") =
      .ok ⟨50, 50000, 1000, 5000, 100⟩ :=
  ⟨by norm_num [poolReserves, TokenBalance.ui, uiFromRaw, jsTruthyStr, USDC_MINT],
   by norm_num [poolReserves, TokenBalance.ui, uiFromRaw, jsTruthyStr, USDC_MINT],
    (priceAndFDV_quotient_and_example ⟨1000000000, 6⟩ ⟨5000000000, 6⟩ ⟨100000000, 6⟩
      (some USDC_MINT) (some "TokMintXXXXXXXXXXXXXXXXXXXXXXXXXXXXX")
      (by norm_num [poolReserves, TokenBalance.ui, uiFromRaw, jsTruthyStr, USDC_MINT])
      (by norm_num [poolReserves, TokenBalance.ui, uiFromRaw, jsTruthyStr, USDC_MINT])).2.1⟩

/-- C10: the FDV-to-market-cap helper returns a `null` ratio exactly when
the computed market cap is zero (in particular for price 0, or zero total
supply with no circulating supply), and `fdv / marketcap` otherwise. -/
theorem fdvToMcap_null_iff_zero_mcap (price totalSupply : ℚ) (circulatingSupply : Option ℚ) :
    ((fdvToMcap price totalSupply circulatingSupply).marketcap_usd = 0 →
      (fdvToMcap price totalSupply circulatingSupply).fdv_to_mcap = none) ∧
    ((fdvToMcap price totalSupply circulatingSupply).marketcap_usd ≠ 0 →
      (fdvToMcap price totalSupply circulatingSupply).fdv_to_mcap =
        some ((fdvToMcap price totalSupply circulatingSupply).fdv_usd /
          (fdvToMcap price totalSupply circulatingSupply).marketcap_usd)) ∧
    (fdvToMcap 0 totalSupply circulatingSupply).fdv_to_mcap = none ∧
    (fdvToMcap price 0 none).fdv_to_mcap = none := by
  have hr : ∀ (p t : ℚ) (c : Option ℚ), (fdvToMcap p t c).fdv_to_mcap =
      if p * (c.getD t) ≠ 0 then some ((p * t) / (p * (c.getD t))) else none :=
    fun _ _ _ => rfl
  have hmc : ∀ (p t : ℚ) (c : Option ℚ), (fdvToMcap p t c).marketcap_usd = p * (c.getD t) :=
    fun _ _ _ => rfl
  have hf : ∀ (p t : ℚ) (c : Option ℚ), (fdvToMcap p t c).fdv_usd = p * t :=
    fun _ _ _ => rfl
  refine ⟨?_, ?_, ?_, ?_⟩
  · intro h
    rw [hmc] at h
    rw [hr, if_neg (not_not_intro h)]
  · intro h
    rw [hmc] at h
    rw [hr, if_pos h, hf, hmc]
  · rw [hr]
    simp
  · rw [hr]
    simp

/-- Witness for C10 at concrete inputs: market cap 6 ≠ 0 gives ratio
fdv / marketcap. -/
theorem fdvToMcap_null_iff_zero_mcap_check :
    (fdvToMcap 2 3 none).marketcap_usd ≠ 0 ∧
    (fdvToMcap 2 3 none).fdv_to_mcap =
      some ((fdvToMcap 2 3 none).fdv_usd / (fdvToMcap 2 3 none).marketcap_usd) :=
  ⟨by norm_num [fdvToMcap],
    (fdvToMcap_null_iff_zero_mcap 2 3 none).2.1 (by norm_num [fdvToMcap])⟩

/-- C7: `lpLockedPercent` returns a locked percentage of 0 when the LP
total supply is 0 and, when the supply is non-zero, returns the sum of
locker-held ui balances divided by the total ui supply, times 100; it is a
total function over exact rationals, so no NaN or error can arise. -/
theorem lpLockedPercent_div_safety (v1 v2 : List RawAccount)
    (lockerOwners : List String) (sup : TokenBalance) :
    (sup.ui = 0 → (lpLockedPercent v1 v2 lockerOwners sup).locked_pct = 0) ∧
    (sup.ui ≠ 0 → (lpLockedPercent v1 v2 lockerOwners sup).locked_pct =
      ((((v1 ++ v2).filterMap (·.info)).filter (fun i => i.owner ∈ lockerOwners)).map
        (fun i => i.uiAmount.getD 0)).sum / sup.ui * 100) := by
  have hsum : ∀ (rows : List RawAccount) (acc : ℚ),
      rows.foldl (fun acc row =>
        match row.info with
        | none => acc
        | some i => if i.owner ∈ lockerOwners then acc + (i.uiAmount.getD 0) else acc) acc =
      acc + (((rows.filterMap (·.info)).filter (fun i => i.owner ∈ lockerOwners)).map
        (fun i => i.uiAmount.getD 0)).sum := by
    intro rows
    induction rows with
    | nil => intro acc; simp
    | cons r rs ih =>
      intro acc
      match h : r.info with
      | none => simp [h, ih]
      | some i =>
        by_cases hm : i.owner ∈ lockerOwners
        · simp [h, hm, ih, add_assoc]
        · simp [h, hm, ih]
  constructor
  · intro h0
    simp [lpLockedPercent, h0]
  · intro hne
    simp [lpLockedPercent, hne, hsum]

/-- Witness for C7: a concrete locked holder over zero supply yields 0 %,
and over non-zero supply yields the quotient formula. -/
def c7row : RawAccount := ⟨some ⟨"locker", some 1⟩⟩

theorem lpLockedPercent_div_safety_check :
    ((⟨1000, 3⟩ : TokenBalance).ui ≠ 0 ∧
      (lpLockedPercent [c7row] [] ["locker"] ⟨1000, 3⟩).locked_pct =
        ((((([c7row] : List RawAccount) ++ ([] : List RawAccount)).filterMap (·.info)).filter
          (fun i => i.owner ∈ ["locker"])).map (fun i => i.uiAmount.getD 0)).sum /
          (⟨1000, 3⟩ : TokenBalance).ui * 100) ∧
    ((⟨0, 3⟩ : TokenBalance).ui = 0 ∧
      (lpLockedPercent [c7row] [] ["locker"] ⟨0, 3⟩).locked_pct = 0) :=
  ⟨⟨by norm_num [TokenBalance.ui, uiFromRaw],
    (lpLockedPercent_div_safety [c7row] [] ["locker"] ⟨1000, 3⟩).2
      (by norm_num [TokenBalance.ui, uiFromRaw])⟩,
   ⟨by norm_num [TokenBalance.ui, uiFromRaw],
    (lpLockedPercent_div_safety [c7row] [] ["locker"] ⟨0, 3⟩).1
      (by norm_num [TokenBalance.ui, uiFromRaw])⟩⟩

/- ===== Scoring (`scoreToken`) ===== -/

/-- Weight vector for `scoreToken` (`inputs.weights`). -/
structure ScoreWeights where
  lpCount : ℚ
  lpLocked : ℚ
  holdersDist : ℚ
  activity : ℚ
  vip : ℚ
  revival : ℚ
  age : ℚ
  fdvToMc : ℚ
deriving DecidableEq

/-- Default weights used when `inputs.weights` is absent
(`{ lpCount:2, lpLocked:2, holdersDist:2, activity:1, vip:1, revival:1, age:1, fdvToMc:1 }`). -/
def defaultWeights : ScoreWeights := ⟨2, 2, 2, 1, 1, 1, 1, 1⟩

/-- Input record of `scoreToken`.  Fields the source reads through the `||`
operator (or through `?.`) are `Option`s; the rest are plain numbers. -/
structure ScoreInputs where
  lpProviders : ℚ
  lpProvidersMin : ℚ
  lpLockedPct : ℚ
  lpLockedMinPct : ℚ
  concentrationTop1Pct : ℚ
  maxTop1Pct : ℚ
  concentrationTop10Pct : ℚ
  maxTop10Pct : ℚ
  activity24hTraders : Option ℚ
  minTraders24h : Option ℚ
  vipHits : Option ℚ
  revivalActive : Bool
  tokenAgeDays : ℚ
  maxAgeDays : Option ℚ
  fdvToMc : Option ℚ
  weights : Option ScoreWeights
deriving DecidableEq

/-- `scoreToken(inputs)`: the sequential scoring loop, with `score` and
`reasons` threaded exactly as the two mutable variables of the source.
Only the five threshold criteria push a reason string on failure; the VIP,
revival, token-age and FDV≈MC criteria have no `else` branch.  The FDV≈MC
band test reads the ratio as `inputs.fdvToMc || 1`. -/
def scoreToken (i : ScoreInputs) : ℚ × List String :=
  let w := i.weights.getD defaultWeights
  let s1 : ℚ := if i.lpProviders ≥ i.lpProvidersMin then 0 + 10 * w.lpCount else 0
  let r1 : List String :=
    if i.lpProviders ≥ i.lpProvidersMin then [] else [] ++ ["LP providers below threshold"]
  let s2 := if i.lpLockedPct ≥ i.lpLockedMinPct then s1 + 8 * w.lpLocked else s1
  let r2 := if i.lpLockedPct ≥ i.lpLockedMinPct then r1 else r1 ++ ["LP locked pct low"]
  let s3 := if i.concentrationTop1Pct ≤ i.maxTop1Pct then s2 + 6 * w.holdersDist else s2
  let r3 := if i.concentrationTop1Pct ≤ i.maxTop1Pct then r2 else r2 ++ ["Top1 concentration high"]
  let s4 := if i.concentrationTop10Pct ≤ i.maxTop10Pct then s3 + 6 * w.holdersDist else s3
  let r4 := if i.concentrationTop10Pct ≤ i.maxTop10Pct then r3 else r3 ++ ["Top10 concentration high"]
  let s5 := if jsOr i.activity24hTraders 0 ≥ jsOr i.minTraders24h 0 then s4 + 5 * w.activity else s4
  let r5 := if jsOr i.activity24hTraders 0 ≥ jsOr i.minTraders24h 0 then r4 else r4 ++ ["Low traders 24h"]
  let s6 := if jsOr i.vipHits 0 > 0 then s5 + 4 * w.vip else s5
  let s7 := if i.revivalActive then s6 + 3 * w.revival else s6
  let s8 := if i.tokenAgeDays ≤ jsOr i.maxAgeDays 0.25 then s7 + 2 * w.age else s7
  let s9 := if jsOr i.fdvToMc 1 ≥ 0.9 ∧ jsOr i.fdvToMc 1 ≤ 1.1 then s8 + 4 * w.fdvToMc else s8
  (s9, r5)

/-- Accumulator step: conditionally adding to a running score equals the
running score plus a conditional term. -/
theorem ite_add_acc (c : Prop) [Decidable c] (s t : ℚ) :
    (if c then s + t else s) = s + (if c then t else 0) := by
  split <;> simp

/-- Accumulator step: conditionally appending a reason equals the running
list followed by a conditional singleton. -/
theorem ite_append_acc (c : Prop) [Decidable c] (r : List String) (x : String) :
    (if c then r else r ++ [x]) = r ++ (if c then [] else [x]) := by
  split <;> simp

/-- Closed form of `scoreToken`: the score is the sum of nine independent
conditional contributions `base_points * weight`, and the reasons list is
the concatenation of the five threshold criteria's conditional reason
strings, in evaluation order. -/
theorem scoreToken_closed (i : ScoreInputs) :
    scoreToken i =
      ((if i.lpProviders ≥ i.lpProvidersMin then 10 * (i.weights.getD defaultWeights).lpCount else 0)
        + (if i.lpLockedPct ≥ i.lpLockedMinPct then 8 * (i.weights.getD defaultWeights).lpLocked else 0)
        + (if i.concentrationTop1Pct ≤ i.maxTop1Pct then 6 * (i.weights.getD defaultWeights).holdersDist else 0)
        + (if i.concentrationTop10Pct ≤ i.maxTop10Pct then 6 * (i.weights.getD defaultWeights).holdersDist else 0)
        + (if jsOr i.activity24hTraders 0 ≥ jsOr i.minTraders24h 0 then 5 * (i.weights.getD defaultWeights).activity else 0)
        + (if jsOr i.vipHits 0 > 0 then 4 * (i.weights.getD defaultWeights).vip else 0)
        + (if i.revivalActive then 3 * (i.weights.getD defaultWeights).revival else 0)
        + (if i.tokenAgeDays ≤ jsOr i.maxAgeDays 0.25 then 2 * (i.weights.getD defaultWeights).age else 0)
        + (if jsOr i.fdvToMc 1 ≥ 0.9 ∧ jsOr i.fdvToMc 1 ≤ 1.1 then 4 * (i.weights.getD defaultWeights).fdvToMc else 0),
       (if i.lpProviders ≥ i.lpProvidersMin then [] else ["LP providers below threshold"])
        ++ (if i.lpLockedPct ≥ i.lpLockedMinPct then [] else ["LP locked pct low"])
        ++ (if i.concentrationTop1Pct ≤ i.maxTop1Pct then [] else ["Top1 concentration high"])
        ++ (if i.concentrationTop10Pct ≤ i.maxTop10Pct then [] else ["Top10 concentration high"])
        ++ (if jsOr i.activity24hTraders 0 ≥ jsOr i.minTraders24h 0 then [] else ["Low traders 24h"])) := by
  simp only [scoreToken, ite_add_acc, ite_append_acc]
  refine Prod.ext ?_ ?_
  · simp only
    ring
  · simp only [List.nil_append, List.append_assoc]

/-- C2 (amended): each satisfied criterion adds `base_points * weight` to
the score and an unsatisfied criterion adds nothing; but only the five
threshold criteria (LP providers, LP locked, top1, top10, traders) append a
fixed explanatory string when unsatisfied — the VIP-hit, revival, token-age
and FDV≈MC criteria produce no reason entry. -/
theorem scoreToken_criteria (i : ScoreInputs) :
    scoreToken i =
      ((if i.lpProviders ≥ i.lpProvidersMin then 10 * (i.weights.getD defaultWeights).lpCount else 0)
        + (if i.lpLockedPct ≥ i.lpLockedMinPct then 8 * (i.weights.getD defaultWeights).lpLocked else 0)
        + (if i.concentrationTop1Pct ≤ i.maxTop1Pct then 6 * (i.weights.getD defaultWeights).holdersDist else 0)
        + (if i.concentrationTop10Pct ≤ i.maxTop10Pct then 6 * (i.weights.getD defaultWeights).holdersDist else 0)
        + (if jsOr i.activity24hTraders 0 ≥ jsOr i.minTraders24h 0 then 5 * (i.weights.getD defaultWeights).activity else 0)
        + (if jsOr i.vipHits 0 > 0 then 4 * (i.weights.getD defaultWeights).vip else 0)
        + (if i.revivalActive then 3 * (i.weights.getD defaultWeights).revival else 0)
        + (if i.tokenAgeDays ≤ jsOr i.maxAgeDays 0.25 then 2 * (i.weights.getD defaultWeights).age else 0)
        + (if jsOr i.fdvToMc 1 ≥ 0.9 ∧ jsOr i.fdvToMc 1 ≤ 1.1 then 4 * (i.weights.getD defaultWeights).fdvToMc else 0),
       (if i.lpProviders ≥ i.lpProvidersMin then [] else ["LP providers below threshold"])
        ++ (if i.lpLockedPct ≥ i.lpLockedMinPct then [] else ["LP locked pct low"])
        ++ (if i.concentrationTop1Pct ≤ i.maxTop1Pct then [] else ["Top1 concentration high"])
        ++ (if i.concentrationTop10Pct ≤ i.maxTop10Pct then [] else ["Top10 concentration high"])
        ++ (if jsOr i.activity24hTraders 0 ≥ jsOr i.minTraders24h 0 then [] else ["Low traders 24h"])) :=
  scoreToken_closed i

/-- Scoring input on which every threshold criterion is satisfied while the
VIP-hit criterion is unsatisfied (`vipHits = 0`). -/
def c2input : ScoreInputs :=
  { lpProviders := 10, lpProvidersMin := 5, lpLockedPct := 50, lpLockedMinPct := 10,
    concentrationTop1Pct := 5, maxTop1Pct := 20, concentrationTop10Pct := 30, maxTop10Pct := 60,
    activity24hTraders := some 100, minTraders24h := some 1, vipHits := some 0,
    revivalActive := false, tokenAgeDays := 10, maxAgeDays := none, fdvToMc := some 2,
    weights := none }

/-- C2 counterexample: on `c2input` the VIP-hit criterion is unsatisfied
(0 hits), yet the returned reasons list is empty — refuting the claim that
every unsatisfied criterion (including VIP-hit, revival, token-age and
FDV≈MC) appends an explanatory string. -/
theorem scoreToken_vip_unsatisfied_no_reason :
    (scoreToken c2input).2 = [] ∧ ¬ (jsOr c2input.vipHits 0 > 0) := by
  constructor
  · rw [scoreToken_closed]
    norm_num [c2input, jsOr]
  · norm_num [c2input, jsOr]

/-- C5 (amended): the FDV≈MC bonus is governed by the falsy-coalesced ratio
`fdvToMc || 1`: the score equals the score with the bonus forced off (ratio
2 is outside the band) plus `4 * weight` exactly when the coalesced ratio
lies in `[0.9, 1.1]`; a supplied ratio of `0` and an absent ratio both
coalesce to `1` and therefore do earn the bonus. -/
theorem scoreToken_fdv_band_coalesced (i : ScoreInputs) :
    (scoreToken i).1 =
      (scoreToken { i with fdvToMc := some 2 }).1 +
        (if jsOr i.fdvToMc 1 ≥ 0.9 ∧ jsOr i.fdvToMc 1 ≤ 1.1
          then 4 * (i.weights.getD defaultWeights).fdvToMc else 0) ∧
    jsOr (some 0) 1 = 1 ∧ jsOr none 1 = 1 := by
  refine ⟨?_, by norm_num [jsOr], rfl⟩
  have h1 := congrArg Prod.fst (scoreToken_closed i)
  have h2 := congrArg Prod.fst (scoreToken_closed { i with fdvToMc := some 2 })
  simp only at h1 h2
  rw [h1, h2]
  norm_num [jsOr]

/-- Scoring input on which every criterion except FDV≈MC is unsatisfied and
the supplied FDV/market-cap ratio is `0`. -/
def c5input : ScoreInputs :=
  { lpProviders := 0, lpProvidersMin := 5, lpLockedPct := 0, lpLockedMinPct := 10,
    concentrationTop1Pct := 50, maxTop1Pct := 20, concentrationTop10Pct := 90, maxTop10Pct := 60,
    activity24hTraders := some 1, minTraders24h := some 5, vipHits := none,
    revivalActive := false, tokenAgeDays := 10, maxAgeDays := none, fdvToMc := some 0,
    weights := none }

/-- C5 counterexample: on `c5input` the supplied ratio is `0`, which lies
outside `[0.9, 1.1]`, yet the score is `4` — exactly the FDV≈MC bonus
`4 * weight` with default weight 1, every other criterion being
unsatisfied.  A ratio of 0 therefore does earn the bonus, refuting the
claim. -/
theorem scoreToken_zero_ratio_earns_bonus :
    (scoreToken c5input).1 = 4 ∧ ¬ ((0 : ℚ) ≥ 0.9 ∧ (0 : ℚ) ≤ 1.1) ∧
      c5input.fdvToMc = some 0 := by
  refine ⟨?_, by norm_num, rfl⟩
  have h1 := congrArg Prod.fst (scoreToken_closed c5input)
  simp only at h1
  rw [h1]
  norm_num [c5input, jsOr, defaultWeights]

/- ===== Retrying upstream clients (`rpcCall` in index.js, `rpc` in part_000) ===== -/

/-- Trace of one invocation of a retrying client: how many upstream
attempts were made, the inter-attempt sleeps (milliseconds), and the final
outcome surfaced to the caller. -/
structure RetryTrace (E R : Type) where
  attempts : ℕ
  delays : List ℚ
  outcome : Except E R

/-- Loop body of `rpcCall` (index.js): `f k` is the outcome of the k-th
upstream attempt (0-based).  The loop is indexed by the remaining failure
budget `n = RPC_MAX_RETRIES - (failures so far)`: on a failure with no
budget left the JS counter `attempt` has just exceeded `RPC_MAX_RETRIES`
and the caught error is rethrown; otherwise the loop sleeps
`Math.min(250 * attempt, 1500)` and retries. -/
def rpcCallGo {E R : Type} (f : ℕ → Except E R) (a : ℕ) : ℕ → RetryTrace E R
  | 0 =>
    match f a with
    | .ok r => ⟨1, [], .ok r⟩
    | .error e => ⟨1, [], .error e⟩
  | n + 1 =>
    match f a with
    | .ok r => ⟨1, [], .ok r⟩
    | .error _ =>
      let t := rpcCallGo f (a + 1) n
      ⟨t.attempts + 1, min (250 * ((a : ℚ) + 1)) 1500 :: t.delays, t.outcome⟩

/-- `rpcCall(method, params)` of index.js with the network factored out:
retries up to `maxRetries` additional times after the first failure. -/
def rpcCall {E R : Type} (f : ℕ → Except E R) (maxRetries : ℕ) : RetryTrace E R :=
  rpcCallGo f 0 maxRetries

/-- Loop body of `rpc` (part_000): a `for (let i = 0; i <= RPC_MAX_RETRIES; i++)`
loop, indexed by the remaining budget `n = RPC_MAX_RETRIES - i`; on failure
at `i === RPC_MAX_RETRIES` the error is rethrown, otherwise the loop sleeps
`250 * (i + 1)` and retries. -/
def rpcGo {E R : Type} (f : ℕ → Except E R) (i : ℕ) : ℕ → RetryTrace E R
  | 0 =>
    match f i with
    | .ok r => ⟨1, [], .ok r⟩
    | .error e => ⟨1, [], .error e⟩
  | n + 1 =>
    match f i with
    | .ok r => ⟨1, [], .ok r⟩
    | .error _ =>
      let t := rpcGo f (i + 1) n
      ⟨t.attempts + 1, 250 * ((i : ℚ) + 1) :: t.delays, t.outcome⟩

/-- `rpc(method, params)` of part_000 with the network factored out. -/
def rpc {E R : Type} (f : ℕ → Except E R) (maxRetries : ℕ) : RetryTrace E R :=
  rpcGo f 0 maxRetries

/-- When every attempt fails, `rpcCallGo` makes `n + 1` attempts, sleeps
the capped linear backoff between consecutive attempts, and surfaces the
error of the final attempt. -/
theorem rpcCallGo_all_fail {E R : Type} (es : ℕ → E) (f : ℕ → Except E R)
    (hf : ∀ k, f k = .error (es k)) :
    ∀ (n a : ℕ), rpcCallGo f a n =
      ⟨n + 1, (List.range n).map (fun j => min (250 * (((a + j : ℕ) : ℚ) + 1)) 1500),
        .error (es (a + n))⟩ := by
  intro n
  induction n with
  | zero =>
    intro a
    simp [rpcCallGo, hf a]
  | succ n ih =>
    intro a
    simp only [rpcCallGo, hf a, ih (a + 1)]
    refine congrArg₂ (RetryTrace.mk (n + 1 + 1)) ?_
      (by rw [show a + 1 + n = a + (n + 1) by omega])
    rw [List.range_succ_eq_map, List.map_cons, List.map_map]
    refine congrArg₂ List.cons (by push_cast; ring_nf) ?_
    refine List.map_congr_left ?_
    intro j _
    have : a + 1 + j = a + Nat.succ j := by omega
    rw [Function.comp_apply, this]

/-- When every attempt fails, `rpcGo` makes `n + 1` attempts, sleeps the
linear backoff between consecutive attempts, and surfaces the error of the
final attempt. -/
theorem rpcGo_all_fail {E R : Type} (es : ℕ → E) (f : ℕ → Except E R)
    (hf : ∀ k, f k = .error (es k)) :
    ∀ (n i : ℕ), rpcGo f i n =
      ⟨n + 1, (List.range n).map (fun j => 250 * (((i + j : ℕ) : ℚ) + 1)),
        .error (es (i + n))⟩ := by
  intro n
  induction n with
  | zero =>
    intro i
    simp [rpcGo, hf i]
  | succ n ih =>
    intro i
    simp only [rpcGo, hf i, ih (i + 1)]
    refine congrArg₂ (RetryTrace.mk (n + 1 + 1)) ?_
      (by rw [show i + 1 + n = i + (n + 1) by omega])
    rw [List.range_succ_eq_map, List.map_cons, List.map_map]
    refine congrArg₂ List.cons (by push_cast; ring_nf) ?_
    refine List.map_congr_left ?_
    intro j _
    have : i + 1 + j = i + Nat.succ j := by omega
    rw [Function.comp_apply, this]

/-- A list obtained by mapping a monotone function over `List.range` is
pairwise non-decreasing. -/
theorem pairwise_le_map_range (g : ℕ → ℚ) (hg : Monotone g) (n : ℕ) :
    ((List.range n).map g).Pairwise (· ≤ ·) :=
  (List.pairwise_lt_range n).map g (fun _ _ h => hg h.le)

/-- C3: when every upstream attempt fails, both retrying clients — `rpcCall`
of index.js and `rpc` of part_000 — make exactly `maxRetries + 1` attempts,
their inter-attempt delays are non-decreasing, and the error of the final
attempt is surfaced unchanged. -/
theorem retry_exhaustion {E R : Type} (es : ℕ → E) (f : ℕ → Except E R) (maxRetries : ℕ)
    (hf : ∀ k, f k = .error (es k)) :
    ((rpcCall f maxRetries).attempts = maxRetries + 1 ∧
      (rpcCall f maxRetries).delays.Pairwise (· ≤ ·) ∧
      (rpcCall f maxRetries).outcome = .error (es maxRetries)) ∧
    ((rpc f maxRetries).attempts = maxRetries + 1 ∧
      (rpc f maxRetries).delays.Pairwise (· ≤ ·) ∧
      (rpc f maxRetries).outcome = .error (es maxRetries)) := by
  have h1 := rpcCallGo_all_fail es f hf maxRetries 0
  have h2 := rpcGo_all_fail es f hf maxRetries 0
  rw [rpcCall, h1, rpc, h2]
  refine ⟨⟨rfl, ?_, by rw [Nat.zero_add]⟩, ⟨rfl, ?_, by rw [Nat.zero_add]⟩⟩
  · refine pairwise_le_map_range _ (fun x y hxy => ?_) maxRetries
    have hc : (x : ℚ) ≤ y := by exact_mod_cast hxy
    refine min_le_min (by push_cast; linarith) le_rfl
  · refine pairwise_le_map_range _ (fun x y hxy => ?_) maxRetries
    have hc : (x : ℚ) ≤ y := by exact_mod_cast hxy
    push_cast
    linarith

/-- Witness for C3: a client whose every attempt fails with error `k` at
attempt `k`, run with `maxRetries = 2`, makes 3 attempts, sleeps
non-decreasing delays, and surfaces error 2. -/
theorem retry_exhaustion_check :
    (∀ k, (fun k => (Except.error k : Except ℕ ℕ)) k = .error k) ∧
    ((rpcCall (fun k => (Except.error k : Except ℕ ℕ)) 2).attempts = 2 + 1 ∧
      (rpcCall (fun k => (Except.error k : Except ℕ ℕ)) 2).delays.Pairwise (· ≤ ·) ∧
      (rpcCall (fun k => (Except.error k : Except ℕ ℕ)) 2).outcome = .error 2) ∧
    ((rpc (fun k => (Except.error k : Except ℕ ℕ)) 2).attempts = 2 + 1 ∧
      (rpc (fun k => (Except.error k : Except ℕ ℕ)) 2).delays.Pairwise (· ≤ ·) ∧
      (rpc (fun k => (Except.error k : Except ℕ ℕ)) 2).outcome = .error 2) :=
  ⟨fun _ => rfl, retry_exhaustion (fun k => k) (fun k => .error k) 2 (fun _ => rfl)⟩

/- ===== Activity windows (`activityWindows`) ===== -/

/-- One token-transfer leg of a parsed transaction (mint, ui amount,
from/to user accounts, each possibly absent). -/
structure XferLeg where
  mint : String
  tokenAmount : Option ℚ
  fromUser : Option String
  toUser : Option String
deriving DecidableEq

/-- One parsed transaction from the address-history API: block timestamp
(seconds, possibly absent) and its token-transfer legs. -/
structure TxRecord where
  blockTime : Option Int
  tokenTransfers : List XferLeg
deriving DecidableEq

/-- Per-window aggregate: `results[w]` of the source together with the
window's actor set (kept separately there in `actorSets[w]` and merged into
the result as its size at the end). -/
structure WEntry where
  tx : ℕ
  volume_usdc : ℚ
  actors : Finset String
deriving DecidableEq

/-- Inner transfer loop body of `activityWindows`: a USDC-mint leg adds the
absolute coalesced amount to the window's volume, and each truthy
counterparty is added to the window's actor set. -/
def applyLeg (e : WEntry) (t : XferLeg) : WEntry :=
  let e1 := if t.mint = USDC_MINT then
    { e with volume_usdc := e.volume_usdc + |jsOr t.tokenAmount 0| } else e
  let e2 := if jsTruthyStr t.fromUser then
    { e1 with actors := insert (t.fromUser.getD "") e1.actors } else e1
  if jsTruthyStr t.toUser then
    { e2 with actors := insert (t.toUser.getD "") e2.actors } else e2

/-- Pointwise update of the window-keyed result map (`results[w] = ...`). -/
def updAt (m : ℚ → WEntry) (w : ℚ) (e : WEntry) : ℚ → WEntry :=
  fun v => if v = w then e else m v

/-- Per-transaction step of `activityWindows`: skip when the coalesced
timestamp is 0; otherwise compute the age in minutes and, for every
occurrence of a window in the configured list whose length is at least the
age, bump that window's entry (tx count, then the transfer loop). -/
def processTx (windows : List ℚ) (now : Int) (m : ℚ → WEntry) (it : TxRecord) : ℚ → WEntry :=
  let ts := it.blockTime.getD 0
  if ts = 0 then m
  else
    let dtMin : ℚ := ((now - ts : Int) : ℚ) / 60
    windows.foldl (fun m w =>
      if dtMin ≤ w then
        updAt m w (it.tokenTransfers.foldl applyLeg { m w with tx := (m w).tx + 1 })
      else m) m

/-- `activityWindows(addresses, windowsMinutes)` with the per-address
history pages passed in: iterates addresses, then each address's fetched
page, classifying every transaction into the window-keyed result map.  The
source initializes `results[w]` only for configured keys; the map here is
total with the same zero entry as default. -/
def activityWindows (histories : List (List TxRecord)) (windows : List ℚ) (now : Int) :
    ℚ → WEntry :=
  histories.foldl (fun m arr => arr.foldl (processTx windows now) m) (fun _ => ⟨0, 0, ∅⟩)

/-- USDC volume contributed by a transaction's transfer legs. -/
def txVolume (ts : List XferLeg) : ℚ :=
  (ts.map (fun t => if t.mint = USDC_MINT then |jsOr t.tokenAmount 0| else 0)).sum

/-- A transaction qualifies for window `w`: its coalesced timestamp is
non-zero and its age in minutes is at most `w`. -/
def txQualifies (now : Int) (w : ℚ) (it : TxRecord) : Prop :=
  it.blockTime.getD 0 ≠ 0 ∧ ((now - it.blockTime.getD 0 : Int) : ℚ) / 60 ≤ w

instance (now : Int) (w : ℚ) (it : TxRecord) : Decidable (txQualifies now w it) :=
  inferInstanceAs (Decidable (it.blockTime.getD 0 ≠ 0 ∧
    ((now - it.blockTime.getD 0 : Int) : ℚ) / 60 ≤ w))

/-- The transfer fold leaves the tx count unchanged and adds the
transaction's USDC volume to the window's volume. -/
theorem foldl_applyLeg_proj (ts : List XferLeg) :
    ∀ e : WEntry, (ts.foldl applyLeg e).tx = e.tx ∧
      (ts.foldl applyLeg e).volume_usdc = e.volume_usdc + txVolume ts := by
  induction ts with
  | nil => intro e; simp [txVolume]
  | cons t ts ih =>
    intro e
    rw [List.foldl_cons]
    refine ⟨((ih _).1).trans ?_, ((ih _).2).trans ?_⟩
    · by_cases h1 : t.mint = USDC_MINT <;>
        by_cases h2 : jsTruthyStr t.fromUser <;>
        by_cases h3 : jsTruthyStr t.toUser <;>
        simp [applyLeg, h1, h2, h3]
    · by_cases h1 : t.mint = USDC_MINT <;>
        by_cases h2 : jsTruthyStr t.fromUser <;>
        by_cases h3 : jsTruthyStr t.toUser <;>
        simp [applyLeg, h1, h2, h3, txVolume] <;> ring

/-- Window-classification fold of a single transaction: each occurrence of
`w0` in the configured window list whose length is at least the
transaction's age bumps `w0`'s tx count by one and its volume by the
transaction's USDC volume. -/
theorem updAt_self (m : ℚ → WEntry) (w : ℚ) (e : WEntry) : updAt m w e w = e := by
  rw [updAt]
  simp

theorem updAt_other (m : ℚ → WEntry) (w : ℚ) (e : WEntry) (v : ℚ) (h : v ≠ w) :
    updAt m w e v = m v := by
  rw [updAt]
  simp [h]

theorem processTx_winfold (it : TxRecord) (dt : ℚ) :
    ∀ (ws : List ℚ) (m : ℚ → WEntry) (w0 : ℚ),
      ((ws.foldl (fun m w =>
          if dt ≤ w then
            updAt m w (it.tokenTransfers.foldl applyLeg { m w with tx := (m w).tx + 1 })
          else m) m) w0).tx = (m w0).tx + (if dt ≤ w0 then ws.count w0 else 0) ∧
      ((ws.foldl (fun m w =>
          if dt ≤ w then
            updAt m w (it.tokenTransfers.foldl applyLeg { m w with tx := (m w).tx + 1 })
          else m) m) w0).volume_usdc = (m w0).volume_usdc +
        (if dt ≤ w0 then (ws.count w0 : ℚ) * txVolume it.tokenTransfers else 0) := by
  intro ws
  induction ws with
  | nil =>
    intro m w0
    simp
  | cons w ws ih =>
    intro m w0
    rw [List.foldl_cons]
    rcases ih (if dt ≤ w then
        updAt m w (it.tokenTransfers.foldl applyLeg { m w with tx := (m w).tx + 1 })
      else m) w0 with ⟨ih1, ih2⟩
    rw [ih1, ih2]
    by_cases hdt : dt ≤ w
    · rw [if_pos hdt]
      by_cases hw : w0 = w
      · subst hw
        have htx := (foldl_applyLeg_proj it.tokenTransfers { m w0 with tx := (m w0).tx + 1 }).1
        have hvol := (foldl_applyLeg_proj it.tokenTransfers { m w0 with tx := (m w0).tx + 1 }).2
        rw [updAt_self]
        rw [htx]
        rw [hvol]
        rw [List.count_cons]
        constructor
        · simp only [hdt, if_true, beq_self_eq_true]
          ring
        · simp only [hdt, if_true, beq_self_eq_true]
          push_cast
          ring
      · rw [updAt_other _ _ _ _ hw, List.count_cons]
        have hbeq : (w == w0) = false := beq_eq_false_iff_ne.mpr (Ne.symm hw)
        rw [hbeq]
        simp
    · rw [if_neg hdt, List.count_cons]
      by_cases hw : w0 = w
      · subst hw
        simp [hdt]
      · have hbeq : (w == w0) = false := beq_eq_false_iff_ne.mpr (Ne.symm hw)
        rw [hbeq]
        simp

/-- Per-transaction projection of `processTx`: a transaction adds
`count of w0 in windows` (respectively that count times its USDC volume)
exactly when it qualifies for `w0`. -/
theorem processTx_proj (ws : List ℚ) (now : Int) (it : TxRecord) (m : ℚ → WEntry) (w0 : ℚ) :
    ((processTx ws now m it) w0).tx =
      (m w0).tx + (if txQualifies now w0 it then ws.count w0 else 0) ∧
    ((processTx ws now m it) w0).volume_usdc =
      (m w0).volume_usdc +
        (if txQualifies now w0 it then (ws.count w0 : ℚ) * txVolume it.tokenTransfers else 0) := by
  rw [processTx]
  by_cases hts : it.blockTime.getD 0 = 0
  · rw [if_pos hts]
    have hq : ¬ txQualifies now w0 it := fun h => h.1 hts
    rw [if_neg hq, if_neg hq]
    simp
  · rw [if_neg hts]
    rcases processTx_winfold it (((now - it.blockTime.getD 0 : Int) : ℚ) / 60) ws m w0 with ⟨h1, h2⟩
    rw [h1, h2]
    have hq : (((now - it.blockTime.getD 0 : Int) : ℚ) / 60 ≤ w0) ↔ txQualifies now w0 it :=
      ⟨fun h => ⟨hts, h⟩, fun h => h.2⟩
    constructor
    · congr 1
      simp only [hq]
    · congr 1
      simp only [hq]

/-- Fold of `processTx` over a page of transactions: each window key
accumulates its occurrence count in the configured list times the number of
qualifying transactions (respectively times their summed USDC volumes). -/
theorem foldl_processTx_proj (ws : List ℚ) (now : Int) :
    ∀ (txs : List TxRecord) (m : ℚ → WEntry) (w0 : ℚ),
      ((txs.foldl (processTx ws now) m) w0).tx =
        (m w0).tx + ws.count w0 * txs.countP (fun it => decide (txQualifies now w0 it)) ∧
      ((txs.foldl (processTx ws now) m) w0).volume_usdc =
        (m w0).volume_usdc + (ws.count w0 : ℚ) *
          ((txs.map (fun it =>
            if txQualifies now w0 it then txVolume it.tokenTransfers else 0)).sum) := by
  intro txs
  induction txs with
  | nil =>
    intro m w0
    simp
  | cons it txs ih =>
    intro m w0
    rw [List.foldl_cons]
    rcases ih (processTx ws now m it) w0 with ⟨ih1, ih2⟩
    rcases processTx_proj ws now it m w0 with ⟨h1, h2⟩
    rw [ih1, ih2, h1, h2, List.countP_cons, List.map_cons, List.sum_cons]
    constructor
    · by_cases hq : txQualifies now w0 it
      · simp only [hq, decide_eq_true_eq, if_true]
        ring
      · simp only [hq, decide_eq_true_eq, if_false]
        ring
    · by_cases hq : txQualifies now w0 it
      · simp only [hq, if_true]
        ring
      · simp only [hq, if_false]
        ring

/-- A transaction's USDC volume is non-negative (a sum of absolute
values). -/
theorem txVolume_nonneg (ts : List XferLeg) : 0 ≤ txVolume ts := by
  refine List.sum_nonneg ?_
  intro x hx
  simp only [List.mem_map] at hx
  obtain ⟨t, _, rfl⟩ := hx
  split
  · exact abs_nonneg _
  · exact le_refl 0

/-- Closed form of `activityWindows` at any window key: the tx count is the
key's occurrence count in the configured list times the number of
qualifying transactions, and likewise for volume. -/
theorem activityWindows_proj (H : List (List TxRecord)) (ws : List ℚ) (now : Int) (w0 : ℚ) :
    ((activityWindows H ws now) w0).tx =
      ws.count w0 * H.flatten.countP (fun it => decide (txQualifies now w0 it)) ∧
    ((activityWindows H ws now) w0).volume_usdc =
      (ws.count w0 : ℚ) * ((H.flatten.map (fun it =>
        if txQualifies now w0 it then txVolume it.tokenTransfers else 0)).sum) := by
  rw [activityWindows, ← List.foldl_flatten]
  rcases foldl_processTx_proj ws now H.flatten (fun _ => ⟨0, 0, ∅⟩) w0 with ⟨h1, h2⟩
  rw [h1, h2]
  simp

/-- C4 (amended): provided the configured window list contains no duplicate
lengths, the activity aggregation is monotone over configured windows:
for `w1 < w2` both in the list, `tx_count(w1) ≤ tx_count(w2)` and
`volume(w1) ≤ volume(w2)`, because each transaction is counted into every
window whose length is at least its age. -/
theorem activityWindows_monotone (H : List (List TxRecord)) (ws : List ℚ) (now : Int)
    (hnd : ws.Nodup) (w1 w2 : ℚ) (hm1 : w1 ∈ ws) (hm2 : w2 ∈ ws) (hlt : w1 < w2) :
    ((activityWindows H ws now) w1).tx ≤ ((activityWindows H ws now) w2).tx ∧
    ((activityWindows H ws now) w1).volume_usdc ≤
      ((activityWindows H ws now) w2).volume_usdc := by
  rcases activityWindows_proj H ws now w1 with ⟨a1, b1⟩
  rcases activityWindows_proj H ws now w2 with ⟨a2, b2⟩
  rw [a1, a2, b1, b2, List.count_eq_one_of_mem hnd hm1, List.count_eq_one_of_mem hnd hm2]
  constructor
  · simpa using List.countP_mono_left (l := H.flatten) (fun it _ hq => by
      simp only [decide_eq_true_eq] at hq ⊢
      exact ⟨hq.1, hq.2.trans hlt.le⟩)
  · rw [Nat.cast_one, one_mul, one_mul]
    refine List.sum_le_sum ?_
    intro it _
    by_cases hq1 : txQualifies now w1 it
    · rw [if_pos hq1, if_pos ⟨hq1.1, hq1.2.trans hlt.le⟩]
    · rw [if_neg hq1]
      split
      · exact txVolume_nonneg _
      · exact le_refl 0

/-- A one-transaction history page: one USDC transfer of amount 7 at block
time 1000000. -/
def cexPage : List (List TxRecord) :=
  [[⟨some 1000000, [⟨USDC_MINT, some 7, none, none⟩]⟩]]

/-- Witness for C4 at a concrete input: windows `[1, 2]` are duplicate-free
and the counts and volumes are monotone there. -/
theorem activityWindows_monotone_check :
    ([1, 2] : List ℚ).Nodup ∧ (1 : ℚ) ∈ ([1, 2] : List ℚ) ∧ (2 : ℚ) ∈ ([1, 2] : List ℚ) ∧
    (1 : ℚ) < 2 ∧
    (((activityWindows cexPage [1, 2] 1000000) 1).tx ≤
      ((activityWindows cexPage [1, 2] 1000000) 2).tx ∧
    ((activityWindows cexPage [1, 2] 1000000) 1).volume_usdc ≤
      ((activityWindows cexPage [1, 2] 1000000) 2).volume_usdc) :=
  ⟨by norm_num, by norm_num, by norm_num, by norm_num,
    activityWindows_monotone cexPage [1, 2] 1000000 (by norm_num) 1 2
      (by norm_num) (by norm_num) (by norm_num)⟩

/-- C4 counterexample: with the configured (and schema-accepted) window
list `[1, 1, 2]`, the duplicated key 1 is bumped twice per qualifying
transaction: for `w1 = 1 < 2 = w2` the aggregation yields
`tx_count(1) = 2 > 1 = tx_count(2)` and `volume(1) = 14 > 7 = volume(2)`,
refuting the unconditional monotonicity claim. -/
theorem activityWindows_dup_window_not_monotone :
    (1 : ℚ) < 2 ∧
    ((activityWindows cexPage [1, 1, 2] 1000000) 2).tx <
      ((activityWindows cexPage [1, 1, 2] 1000000) 1).tx ∧
    ((activityWindows cexPage [1, 1, 2] 1000000) 2).volume_usdc <
      ((activityWindows cexPage [1, 1, 2] 1000000) 1).volume_usdc := by
  rcases activityWindows_proj cexPage [1, 1, 2] 1000000 1 with ⟨a1, b1⟩
  rcases activityWindows_proj cexPage [1, 1, 2] 1000000 2 with ⟨a2, b2⟩
  refine ⟨by norm_num, ?_, ?_⟩
  · rw [a1, a2]
    norm_num [cexPage, List.count_cons, List.countP_cons, txQualifies, jsOr]
  · rw [b1, b2]
    norm_num [cexPage, List.count_cons, List.countP_cons, txQualifies, txVolume, jsOr, USDC_MINT]

/- ===== Top holders (`topHolders`) ===== -/

/-- Positive-balance holder collected by the first loop of `topHolders`. -/
structure HolderItem where
  owner : String
  ui : ℚ
deriving DecidableEq

/-- First loop of `topHolders`: keep rows with parsed info and positive
coalesced ui balance (`Number(info.tokenAmount?.uiAmount || 0)`,
`if (ui > 0)`). -/
def holderItems (v1 v2 : List RawAccount) : List HolderItem :=
  (v1 ++ v2).filterMap (fun row =>
    row.info.bind (fun i =>
      if 0 < i.uiAmount.getD 0 then some ⟨i.owner, i.uiAmount.getD 0⟩ else none))

/-- One ranked entry of the returned `top` list. -/
structure TopEntry where
  rank : ℕ
  owner : String
  amount : ℚ
  pct_of_supply : ℚ
deriving DecidableEq

/-- Result record of `topHolders`. -/
structure TopHoldersResult where
  supply : ℚ
  total_accounts : ℕ
  top : List TopEntry
  concentration_top1_pct : ℚ
  concentration_top10_pct : ℚ
deriving DecidableEq

/-- Percentage of supply held (`sup.ui ? (x.ui/sup.ui)*100 : 0`). -/
def hpct (sup : TokenBalance) (x : HolderItem) : ℚ :=
  if sup.ui ≠ 0 then x.ui / sup.ui * 100 else 0

/-- `topHolders(mint, limit)` with the fetched account rows and supply
passed in: merge the two program scans, keep positive balances, sort
descending by ui balance, truncate to `limit`, attach 1-based ranks and
percentages; `top1` is the first entry's percentage (`|| 0`) and `top10`
the sum over the first ten entries. -/
def topHolders (v1 v2 : List RawAccount) (sup : TokenBalance) (limit : ℕ) : TopHoldersResult :=
  let items := holderItems v1 v2
  let sorted := items.mergeSort (fun a b => decide (b.ui ≤ a.ui))
  let top := (sorted.take limit).enum.map (fun p =>
    (⟨p.1 + 1, p.2.owner, p.2.ui, hpct sup p.2⟩ : TopEntry))
  let top1 := jsOr ((top.head?).map (·.pct_of_supply)) 0
  let top10 := (top.take 10).foldl (fun s x => s + x.pct_of_supply) 0
  ⟨sup.ui, items.length, top, top1, top10⟩

/-- Every collected holder item has a positive ui balance. -/
theorem holderItems_pos (v1 v2 : List RawAccount) :
    ∀ x ∈ holderItems v1 v2, 0 < x.ui := by
  intro x hx
  simp only [holderItems, List.mem_filterMap] at hx
  obtain ⟨row, _, hrow⟩ := hx
  cases hinfo : row.info with
  | none =>
    rw [hinfo] at hrow
    simp at hrow
  | some i =>
    rw [hinfo, Option.some_bind] at hrow
    split at hrow
    · cases hrow
      assumption
    · cases hrow

/-- `x || 0` on a present number is the number itself. -/
theorem jsOr_some_zero (v : ℚ) : jsOr (some v) 0 = v := by
  by_cases h : v = 0 <;> simp [jsOr, h]

/-- Folding `+ pct` over a list sums the percentages. -/
theorem foldl_add_pct (l : List TopEntry) :
    ∀ s : ℚ, l.foldl (fun s x => s + x.pct_of_supply) s =
      s + (l.map (·.pct_of_supply)).sum := by
  induction l with
  | nil =>
    intro s
    simp
  | cons x xs ih =>
    intro s
    rw [List.foldl_cons, ih, List.map_cons, List.sum_cons]
    ring

/-- Percentages are non-negative for non-negative balances. -/
theorem hpct_nonneg (sup : TokenBalance) (x : HolderItem) (hx : 0 ≤ x.ui)
    (hsup : 0 ≤ sup.ui) : 0 ≤ hpct sup x := by
  rw [hpct]
  split
  · exact mul_nonneg (div_nonneg hx hsup) (by norm_num)
  · exact le_refl 0

/-- Percentages are at most 100 when the balance is at most the supply. -/
theorem hpct_le_100 (sup : TokenBalance) (x : HolderItem) (hx : x.ui ≤ sup.ui)
    (hsup : 0 < sup.ui) : hpct sup x ≤ 100 := by
  rw [hpct, if_pos hsup.ne.symm, div_mul_eq_mul_div, div_le_iff₀ hsup]
  nlinarith

/-- The percentage projection of the ranked entries built over a list is
the percentage map of the list itself (the rank does not enter). -/
theorem enum_map_pct (sup : TokenBalance) (l : List HolderItem) :
    ((l.enum.map (fun p => (⟨p.1 + 1, p.2.owner, p.2.ui, hpct sup p.2⟩ : TopEntry))).map
      (·.pct_of_supply)) = l.map (hpct sup) := by
  rw [List.map_map]
  have h : ((fun e : TopEntry => e.pct_of_supply) ∘
      (fun p : ℕ × HolderItem => (⟨p.1 + 1, p.2.owner, p.2.ui, hpct sup p.2⟩ : TopEntry))) =
      (hpct sup) ∘ Prod.snd := rfl
  rw [h, ← List.map_map, List.enum_map_snd]

/-- Concentration bounds over an arbitrary holder list `L` (instantiated
with the sorted list): with positive balances below the supply, a
non-empty `L` and a positive limit, the derived top1/top10/entry
percentages satisfy the claimed bounds. -/
theorem topSection_bounds (sup : TokenBalance) (L : List HolderItem) (limit : ℕ)
    (hL : ∀ x ∈ L, 0 < x.ui ∧ x.ui ≤ sup.ui)
    (hsumL : ((L.map (·.ui)).sum) ≤ sup.ui)
    (hsup : 0 < sup.ui) (hlim : 1 ≤ limit) (hneL : L ≠ []) :
    0 ≤ jsOr ((((L.take limit).enum.map (fun p =>
        (⟨p.1 + 1, p.2.owner, p.2.ui, hpct sup p.2⟩ : TopEntry))).head?).map
        (·.pct_of_supply)) 0 ∧
    jsOr ((((L.take limit).enum.map (fun p =>
        (⟨p.1 + 1, p.2.owner, p.2.ui, hpct sup p.2⟩ : TopEntry))).head?).map
        (·.pct_of_supply)) 0 ≤
      ((((L.take limit).enum.map (fun p =>
        (⟨p.1 + 1, p.2.owner, p.2.ui, hpct sup p.2⟩ : TopEntry))).take 10).foldl
        (fun s x => s + x.pct_of_supply) 0) ∧
    ((((L.take limit).enum.map (fun p =>
        (⟨p.1 + 1, p.2.owner, p.2.ui, hpct sup p.2⟩ : TopEntry))).take 10).foldl
        (fun s x => s + x.pct_of_supply) 0) ≤ 100 ∧
    ∀ e ∈ ((L.take limit).enum.map (fun p =>
        (⟨p.1 + 1, p.2.owner, p.2.ui, hpct sup p.2⟩ : TopEntry))),
      0 ≤ e.pct_of_supply ∧ e.pct_of_supply ≤ 100 := by
  obtain ⟨k, rfl⟩ : ∃ k, limit = k + 1 := ⟨limit - 1, by omega⟩
  obtain ⟨x0, l', rfl⟩ := List.exists_cons_of_ne_nil hneL
  have hx0 := hL x0 (List.mem_cons_self x0 l')
  rw [List.take_succ_cons, List.enum_cons]
  have hmapcons : ∀ (r : List (ℕ × HolderItem)),
      (((0, x0) :: r).map (fun p =>
        (⟨p.1 + 1, p.2.owner, p.2.ui, hpct sup p.2⟩ : TopEntry))) =
      (⟨1, x0.owner, x0.ui, hpct sup x0⟩ : TopEntry) :: (r.map (fun p =>
        (⟨p.1 + 1, p.2.owner, p.2.ui, hpct sup p.2⟩ : TopEntry))) := by
    intro r
    rw [List.map_cons]
  rw [hmapcons, List.head?_cons, Option.map_some' _ _, jsOr_some_zero,
    show (10 : ℕ) = 9 + 1 from rfl, List.take_succ_cons, List.foldl_cons, zero_add,
    foldl_add_pct]
  have hpct0 : 0 ≤ hpct sup x0 := hpct_nonneg sup x0 hx0.1.le hsup.le
  have htail_nonneg : ∀ q ∈ (((List.enumFrom 1 (l'.take k)).map (fun p =>
      (⟨p.1 + 1, p.2.owner, p.2.ui, hpct sup p.2⟩ : TopEntry))).take 9).map
      (·.pct_of_supply), 0 ≤ q := by
    intro q hq
    rw [List.map_take] at hq
    have hq' := List.take_subset 9 _ hq
    simp only [List.map_map, List.mem_map] at hq'
    obtain ⟨p, hp, rfl⟩ := hq'
    have hp2 : p.2 ∈ l'.take k := by
      have := List.mem_map_of_mem Prod.snd hp
      rw [List.enumFrom_map_snd] at this
      exact this
    have hp2' : p.2 ∈ x0 :: l' := List.mem_cons_of_mem x0 (List.take_subset k l' hp2)
    exact hpct_nonneg sup p.2 (hL p.2 hp2').1.le hsup.le
  refine ⟨hpct0, ?_, ?_, ?_⟩
  · have : 0 ≤ ((((List.enumFrom 1 (l'.take k)).map (fun p =>
        (⟨p.1 + 1, p.2.owner, p.2.ui, hpct sup p.2⟩ : TopEntry))).take 9).map
        (·.pct_of_supply)).sum := List.sum_nonneg htail_nonneg
    linarith
  · have htail_eq : ((List.enumFrom 1 (l'.take k)).map (fun p =>
        (⟨p.1 + 1, p.2.owner, p.2.ui, hpct sup p.2⟩ : TopEntry))).map (·.pct_of_supply) =
        (l'.take k).map (hpct sup) := by
      rw [List.map_map]
      have h : ((fun e : TopEntry => e.pct_of_supply) ∘
          (fun p : ℕ × HolderItem => (⟨p.1 + 1, p.2.owner, p.2.ui, hpct sup p.2⟩ : TopEntry))) =
          (hpct sup) ∘ Prod.snd := rfl
      rw [h, ← List.map_map, List.enumFrom_map_snd]
    have hstep1 : ((((List.enumFrom 1 (l'.take k)).map (fun p =>
        (⟨p.1 + 1, p.2.owner, p.2.ui, hpct sup p.2⟩ : TopEntry))).take 9).map
        (·.pct_of_supply)).sum ≤ ((l'.take k).map (hpct sup)).sum := by
      rw [List.map_take, htail_eq]
      refine List.Sublist.sum_le_sum (List.take_sublist 9 _) ?_
      intro q hq
      simp only [List.mem_map] at hq
      obtain ⟨x, hx, rfl⟩ := hq
      have hx' : x ∈ x0 :: l' := List.mem_cons_of_mem x0 (List.take_subset k l' hx)
      exact hpct_nonneg sup x (hL x hx').1.le hsup.le
    have hsum2 : hpct sup x0 + ((l'.take k).map (hpct sup)).sum ≤ 100 := by
      have hconss : ((x0 :: l'.take k).map (hpct sup)).sum =
          hpct sup x0 + ((l'.take k).map (hpct sup)).sum := by
        rw [List.map_cons, List.sum_cons]
      have hrw : ∀ x ∈ x0 :: l'.take k, hpct sup x = x.ui * (100 / sup.ui) := by
        intro x _
        rw [hpct, if_pos hsup.ne.symm, div_mul_eq_mul_div, mul_div_assoc]
      have hmapeq : (x0 :: l'.take k).map (hpct sup) =
          (x0 :: l'.take k).map (fun x => x.ui * (100 / sup.ui)) :=
        List.map_congr_left hrw
      have hsub : (x0 :: l'.take k).Sublist (x0 :: l') := (List.take_sublist k l').cons₂ x0
      have huisum : ((x0 :: l'.take k).map (·.ui)).sum ≤ ((x0 :: l').map (·.ui)).sum := by
        refine List.Sublist.sum_le_sum (hsub.map (·.ui)) ?_
        intro q hq
        simp only [List.mem_map] at hq
        obtain ⟨x, hx, rfl⟩ := hq
        exact (hL x hx).1.le
      have hfin : ((x0 :: l'.take k).map (·.ui)).sum * (100 / sup.ui) ≤ 100 := by
        have hc : (0 : ℚ) ≤ 100 / sup.ui := by positivity
        have hm := mul_le_mul_of_nonneg_right (huisum.trans hsumL) hc
        calc ((x0 :: l'.take k).map (·.ui)).sum * (100 / sup.ui)
            ≤ sup.ui * (100 / sup.ui) := hm
          _ = 100 := by field_simp
      rw [← hconss, hmapeq, List.sum_map_mul_right]
      exact hfin
    linarith
  · intro e he
    rw [List.mem_cons] at he
    rcases he with rfl | he
    · exact ⟨hpct_nonneg sup x0 hx0.1.le hsup.le, hpct_le_100 sup x0 hx0.2 hsup⟩
    · simp only [List.mem_map] at he
      obtain ⟨p, hp, rfl⟩ := he
      have hp2 : p.2 ∈ l'.take k := by
        have hmem := List.mem_map_of_mem Prod.snd hp
        rw [List.enumFrom_map_snd] at hmem
        exact hmem
      have hx' : p.2 ∈ x0 :: l' := List.mem_cons_of_mem x0 (List.take_subset k l' hp2)
      exact ⟨hpct_nonneg sup p.2 (hL p.2 hx').1.le hsup.le,
        hpct_le_100 sup p.2 (hL p.2 hx').2 hsup⟩

/-- C8: for a mint whose positive-balance holder set is non-empty and whose
holders' total does not exceed the (positive) ui supply, with a positive
`limit`, the holder analysis satisfies
`0 ≤ concentration_top1_pct ≤ concentration_top10_pct ≤ 100` and every
returned entry's `pct_of_supply` lies in `[0, 100]`. -/
theorem topHolders_concentration_bounds (v1 v2 : List RawAccount) (sup : TokenBalance)
    (limit : ℕ) (hne : holderItems v1 v2 ≠ [])
    (hsum : (((holderItems v1 v2).map (·.ui)).sum) ≤ sup.ui)
    (hsup : 0 < sup.ui) (hlim : 1 ≤ limit) :
    0 ≤ (topHolders v1 v2 sup limit).concentration_top1_pct ∧
    (topHolders v1 v2 sup limit).concentration_top1_pct ≤
      (topHolders v1 v2 sup limit).concentration_top10_pct ∧
    (topHolders v1 v2 sup limit).concentration_top10_pct ≤ 100 ∧
    ∀ e ∈ (topHolders v1 v2 sup limit).top, 0 ≤ e.pct_of_supply ∧ e.pct_of_supply ≤ 100 := by
  have hperm : ((holderItems v1 v2).mergeSort (fun a b => decide (b.ui ≤ a.ui))).Perm
      (holderItems v1 v2) := List.mergeSort_perm _ _
  have hL : ∀ x ∈ (holderItems v1 v2).mergeSort (fun a b => decide (b.ui ≤ a.ui)),
      0 < x.ui ∧ x.ui ≤ sup.ui := by
    intro x hx
    have hx' : x ∈ holderItems v1 v2 := hperm.mem_iff.mp hx
    refine ⟨holderItems_pos v1 v2 x hx', ?_⟩
    have h1 : x.ui ≤ ((holderItems v1 v2).map (·.ui)).sum := by
      refine List.single_le_sum ?_ _ (List.mem_map_of_mem (·.ui) hx')
      intro q hq
      simp only [List.mem_map] at hq
      obtain ⟨y, hy, rfl⟩ := hq
      exact (holderItems_pos v1 v2 y hy).le
    exact h1.trans hsum
  have hsumL : ((((holderItems v1 v2).mergeSort (fun a b => decide (b.ui ≤ a.ui))).map
      (·.ui)).sum) ≤ sup.ui := by
    rw [(hperm.map (·.ui)).sum_eq]
    exact hsum
  have hneL : (holderItems v1 v2).mergeSort (fun a b => decide (b.ui ≤ a.ui)) ≠ [] := by
    intro h
    have hlen := hperm.length_eq
    rw [h] at hlen
    exact hne (List.length_eq_zero.mp hlen.symm)
  exact topSection_bounds sup _ limit hL hsumL hsup hlim hneL

/-- The three concrete holder rows of the spec's end-to-end example
(balances 600, 300, 100 ui). -/
def c8rows : List RawAccount :=
  [⟨some ⟨"alice", some 600⟩⟩, ⟨some ⟨"bob", some 300⟩⟩, ⟨some ⟨"carol", some 100⟩⟩]

/-- Witness for C8 at the spec's example: three positive holders totalling
the full 1000 ui supply, `limit = 2`; all four hypotheses hold and the
bounds follow. -/
theorem topHolders_concentration_bounds_check :
    (holderItems c8rows [] ≠ [] ∧
      (((holderItems c8rows []).map (·.ui)).sum) ≤ (⟨1000000, 3⟩ : TokenBalance).ui ∧
      0 < (⟨1000000, 3⟩ : TokenBalance).ui ∧ 1 ≤ 2) ∧
    (0 ≤ (topHolders c8rows [] ⟨1000000, 3⟩ 2).concentration_top1_pct ∧
      (topHolders c8rows [] ⟨1000000, 3⟩ 2).concentration_top1_pct ≤
        (topHolders c8rows [] ⟨1000000, 3⟩ 2).concentration_top10_pct ∧
      (topHolders c8rows [] ⟨1000000, 3⟩ 2).concentration_top10_pct ≤ 100 ∧
      ∀ e ∈ (topHolders c8rows [] ⟨1000000, 3⟩ 2).top,
        0 ≤ e.pct_of_supply ∧ e.pct_of_supply ≤ 100) :=
  ⟨⟨by simp [holderItems, c8rows],
    by norm_num [holderItems, c8rows, List.filterMap_cons, TokenBalance.ui, uiFromRaw],
    by norm_num [TokenBalance.ui, uiFromRaw], by norm_num⟩,
   topHolders_concentration_bounds c8rows [] ⟨1000000, 3⟩ 2
     (by simp [holderItems, c8rows])
     (by norm_num [holderItems, c8rows, List.filterMap_cons, TokenBalance.ui, uiFromRaw])
     (by norm_num [TokenBalance.ui, uiFromRaw]) (by norm_num)⟩

/- ===== VIP wallet presence (`vipWalletsPresence`) ===== -/

/-- Per-leg step of `vipWalletsPresence`: read both counterparties with an
empty-string default; when either is in the VIP set, bump the hit counter
of `vip.has(a) ? a : b` — the from-side when it is VIP, else the to-side. -/
def vipStepLeg (vip : Finset String) (hits : String → ℕ) (t : XferLeg) : String → ℕ :=
  let a := t.fromUser.getD ""
  let b := t.toUser.getD ""
  if a ∈ vip ∨ b ∈ vip then
    let hit := if a ∈ vip then a else b
    fun x => if x = hit then hits x + 1 else hits x
  else hits

/-- Per-transaction step of `vipWalletsPresence`: skip transactions older
than the cutoff, then fold the leg step over the token transfers. -/
def vipTxStep (since : Int) (vip : Finset String) (hits : String → ℕ) (it : TxRecord) :
    String → ℕ :=
  if it.blockTime.getD 0 < since then hits
  else it.tokenTransfers.foldl (vipStepLeg vip) hits

/-- Executable model of JavaScript `s.trim()`: drop leading and trailing
whitespace characters. -/
def jsTrim (s : String) : String :=
  String.mk (((s.data.dropWhile Char.isWhitespace).reverse.dropWhile Char.isWhitespace).reverse)

/-- `vipWalletsPresence(vipAddresses, addressesToScan)` with the history
pages passed in: builds the VIP set from the trimmed, non-empty addresses
and folds the per-transaction step over every page; the returned map gives
each address's hit count (the source reports the map's entries and size). -/
def vipWalletsPresence (vipAddresses : List String) (histories : List (List TxRecord))
    (now : Int) : String → ℕ :=
  let since := now - 86400
  let vip : Finset String := ((vipAddresses.map jsTrim).filter (· ≠ "")).toFinset
  histories.foldl (fun h arr => arr.foldl (vipTxStep since vip) h) (fun _ => 0)

/-- One transfer leg whose two counterparties are both VIP addresses. -/
def c9leg : XferLeg := ⟨"SomeMintYYYYYYYYYYYYYYYYYYYYYYYYYYYY", some 5, some "VipOne", some "VipTwo"⟩

/-- History containing a single fresh transaction with the both-VIP leg. -/
def c9page : List (List TxRecord) := [[⟨some 1000000, [c9leg]⟩]]

/-- C9 counterexample: scanning a single qualifying leg whose from-side and
to-side are both VIP addresses credits only the from-side: VipOne's count
is 1 but VipTwo's count is 0, refuting the claim that each of the two VIP
addresses' appearance in the leg is counted. -/
theorem vipWalletsPresence_both_sides_one_credit :
    vipWalletsPresence ["VipOne", "VipTwo"] c9page 1000000 "VipOne" = 1 ∧
    vipWalletsPresence ["VipOne", "VipTwo"] c9page 1000000 "VipTwo" = 0 := by
  constructor <;> decide

/-- C9 (amended): each qualifying transfer leg increments exactly one VIP
address's hit count — the from-side counterparty when it is in the VIP set,
otherwise the to-side; when both sides are VIP only the from-side is
credited, and a leg with no VIP side changes nothing. -/
theorem vipStepLeg_from_side_priority (vip : Finset String) (hits : String → ℕ) (t : XferLeg) :
    (t.fromUser.getD "" ∈ vip →
      vipStepLeg vip hits t =
        fun x => if x = t.fromUser.getD "" then hits x + 1 else hits x) ∧
    (t.fromUser.getD "" ∉ vip → t.toUser.getD "" ∈ vip →
      vipStepLeg vip hits t =
        fun x => if x = t.toUser.getD "" then hits x + 1 else hits x) ∧
    (t.fromUser.getD "" ∉ vip → t.toUser.getD "" ∉ vip → vipStepLeg vip hits t = hits) := by
  refine ⟨?_, ?_, ?_⟩
  · intro ha
    rw [vipStepLeg]
    simp only [ha, true_or, if_true, if_pos ha]
  · intro ha hb
    rw [vipStepLeg]
    simp only [ha, hb, or_true, if_true, if_false, if_neg ha]
  · intro ha hb
    rw [vipStepLeg]
    simp only [ha, hb, or_self, if_false]

/-- Witness for C9 at the concrete both-VIP leg: the from-side is in the
VIP set, and the leg step bumps exactly the from-side's counter. -/
theorem vipStepLeg_from_side_priority_check :
    c9leg.fromUser.getD "" ∈ ((["VipOne", "VipTwo"].map jsTrim).filter (· ≠ "")).toFinset ∧
    vipStepLeg ((["VipOne", "VipTwo"].map jsTrim).filter (· ≠ "")).toFinset
        (fun _ => 0) c9leg =
      fun x => if x = c9leg.fromUser.getD "" then (fun _ => 0) x + 1 else (fun _ => 0) x :=
  ⟨by decide,
    (vipStepLeg_from_side_priority
      ((["VipOne", "VipTwo"].map jsTrim).filter (· ≠ "")).toFinset
      (fun _ => 0) c9leg).1 (by decide)⟩
